import Mathlib

/-!
Verification of the Smart-Mat-Maze core (grid-test.js): the ray simulation
engine (traceRay and its helpers) and the signal-interpretation state machine
(processSignal / the signal-9 timer), together with the grid mutation
operations toggleCell and resetPlayerObstacles.

Machine integers of the source are modelled as Int (JS numbers used as
integers); the N x N cell matrix is a function on Fin n; a thrown exception is
modelled as Option.none.
-/

/-- Cell kinds: 0 = empty, 1 = player obstacle, 2 = fixed obstacle. -/
inductive Cell
  | empty
  | player
  | fixed
deriving DecidableEq, Repr

/-- Ray directions, as the strings "N","S","E","W" of the source. -/
inductive Dir
  | N
  | S
  | E
  | W
deriving DecidableEq, Repr

/-- Boundary sides of the grid. -/
inductive Side
  | top
  | bottom
  | left
  | right
deriving DecidableEq, Repr

/-- A boundary reference: a side plus an index along it (row index for
left/right, column index for top/bottom). -/
structure BoundaryRef where
  side : Side
  index : Int
deriving DecidableEq, Repr

/-- dirToDelta of the source: (dr, dc) per direction. -/
def dirToDelta : Dir → Int × Int
  | Dir.N => (-1, 0)
  | Dir.S => (1, 0)
  | Dir.E => (0, 1)
  | Dir.W => (0, -1)

/-- rotateCCW of the source: N -> W -> S -> E -> N. -/
def rotateCCW : Dir → Dir
  | Dir.N => Dir.W
  | Dir.W => Dir.S
  | Dir.S => Dir.E
  | Dir.E => Dir.N

/-- isInside of the source: r >= 0 && r < N && c >= 0 && c < N. -/
def isInside (n : Nat) (r c : Int) : Bool :=
  decide (0 ≤ r) && decide (r < (n : Int)) && decide (0 ≤ c) && decide (c < (n : Int))

/-- computeExitSideAndIndex of the source.  The final `throw new Error
("Expected outside")` is modelled as `none`. -/
def computeExitSideAndIndex (n : Nat) (lastInsideR lastInsideC nextR nextC : Int) :
    Option BoundaryRef :=
  if nextR < 0 then some ⟨Side.top, lastInsideC⟩
  else if (n : Int) ≤ nextR then some ⟨Side.bottom, lastInsideC⟩
  else if nextC < 0 then some ⟨Side.left, lastInsideR⟩
  else if (n : Int) ≤ nextC then some ⟨Side.right, lastInsideR⟩
  else none

/-- entryStartOutside of the source: the position one cell outside the grid on
the entry side paired with the inward direction. -/
def entryStartOutside (n : Nat) (entry : BoundaryRef) : Int × Int × Dir :=
  match entry.side with
  | Side.left => (entry.index, -1, Dir.E)
  | Side.right => (entry.index, (n : Int), Dir.W)
  | Side.top => (-1, entry.index, Dir.S)
  | Side.bottom => ((n : Int), entry.index, Dir.N)

/-- One recorded path element: {r, c, dirBeforeCell, cellType}. -/
structure PathEntry where
  r : Int
  c : Int
  dirBeforeCell : Dir
  cellType : Cell
deriving DecidableEq, Repr

/-- Simulation outcome: "WIN" or "LOSE". -/
inductive Outcome
  | win
  | lose
deriving DecidableEq, Repr

/-- The object returned by traceRay. -/
structure SimResult where
  outcome : Outcome
  exitInfo : Option BoundaryRef
  path : List PathEntry
  reason : String
deriving DecidableEq, Repr

def winReason : String := "Ray exited through the designated exit."

def loopReason : String :=
  "Loop detected (ray revisited the same cell with the same direction)."

def neverEnteredReason : String := "Ray never entered the grid (invalid entry config)."

def stepLimitReason : String := "Step limit reached (likely looping)."

/-- side.toUpperCase() of the source. -/
def sideUpper : Side → String
  | Side.top => "TOP"
  | Side.bottom => "BOTTOM"
  | Side.left => "LEFT"
  | Side.right => "RIGHT"

/-- The dynamic lose reason built at a non-target exit. -/
def loseExitReason (e : BoundaryRef) : String :=
  "Ray exited at " ++ sideUpper e.side ++ " @ " ++ toString e.index ++ ", not the target exit."

/-- The grid snapshot read by the tracer, as a total function (the source reads
`this.state[r][c]` only at in-grid positions). -/
abbrev GridFn := Int → Int → Cell

/-- The inputs of one trace: dimension N, cell state, entry and exit config. -/
structure TraceEnv where
  n : Nat
  state : GridFn
  entry : BoundaryRef
  exit : BoundaryRef

/-- The while loop of traceRay, with the remaining iteration count as fuel
(maxSteps = 512 at the top call).  `visited` is the memo of (r, c, dir)
triples, newest first; `path` is the recorded path in order. -/
def traceLoop (env : TraceEnv) :
    Nat → Int → Int → Dir → List (Int × Int × Dir) → List PathEntry → Option SimResult
  | 0, _, _, _, _, path =>
      some { outcome := Outcome.lose, exitInfo := none, path := path, reason := stepLimitReason }
  | fuel+1, r, c, dir, visited, path =>
      let d := dirToDelta dir
      let nr := r + d.1
      let nc := c + d.2
      if isInside env.n nr nc then
        if (nr, nc, dir) ∈ visited then
          some { outcome := Outcome.lose, exitInfo := none, path := path, reason := loopReason }
        else
          let cellVal := env.state nr nc
          let newEntry : PathEntry :=
            { r := nr, c := nc, dirBeforeCell := dir, cellType := cellVal }
          let dir2 := if cellVal = Cell.player ∨ cellVal = Cell.fixed then rotateCCW dir else dir
          traceLoop env fuel nr nc dir2 ((nr, nc, dir) :: visited) (path ++ [newEntry])
      else
        if isInside env.n r c then
          (computeExitSideAndIndex env.n r c nr nc).map (fun exitInfo =>
            if exitInfo.side = env.exit.side ∧ exitInfo.index = env.exit.index then
              { outcome := Outcome.win, exitInfo := some exitInfo, path := path,
                reason := winReason }
            else
              { outcome := Outcome.lose, exitInfo := some exitInfo, path := path,
                reason := loseExitReason exitInfo })
        else
          some { outcome := Outcome.lose, exitInfo := none, path := path,
                 reason := neverEnteredReason }

/-- traceRay of the source: start one cell outside the entry and run the
bounded loop with the 512-step safety cap. -/
def traceRay (env : TraceEnv) : Option SimResult :=
  let start := entryStartOutside env.n env.entry
  traceLoop env 512 start.1 start.2.1 start.2.2 [] []

/-! ### The abstract ray orbit

`rayStep` is the per-iteration transition of the loop on (r, c, direction)
triples; `rayPosAux env k` is the loop-top state after `k` continuing
iterations.  These let the theorems speak about "the triple entered at step k"
independently of the loop's internal memo. -/

/-- One transition of the trace loop on the (row, column, direction) state:
advance one cell, then rotate if the entered cell is an obstacle. -/
def rayStep (env : TraceEnv) (s : Int × Int × Dir) : Int × Int × Dir :=
  let d := dirToDelta s.2.2
  let nr := s.1 + d.1
  let nc := s.2.1 + d.2
  let cellVal := env.state nr nc
  (nr, nc, if cellVal = Cell.player ∨ cellVal = Cell.fixed then rotateCCW s.2.2 else s.2.2)

/-- The loop-top state after k continuing iterations. -/
def rayPosAux (env : TraceEnv) : Nat → Int × Int × Dir
  | 0 => entryStartOutside env.n env.entry
  | k+1 => rayStep env (rayPosAux env k)

/-- Row coordinate after k iterations. -/
def posR (env : TraceEnv) (k : Nat) : Int := (rayPosAux env k).1

/-- Column coordinate after k iterations. -/
def posC (env : TraceEnv) (k : Nat) : Int := (rayPosAux env k).2.1

/-- Direction after k iterations (after any rotation at the k-th entered cell). -/
def dirAt (env : TraceEnv) (k : Nat) : Dir := (rayPosAux env k).2.2

/-- The (r, c, dir) memo key checked at iteration k: the position entered at
step k together with the direction of travel on entry. -/
def keyAt (env : TraceEnv) (k : Nat) : Int × Int × Dir :=
  (posR env (k+1), posC env (k+1), dirAt env k)

/-- The path element recorded at iteration k. -/
def pathEntryAt (env : TraceEnv) (k : Nat) : PathEntry :=
  { r := posR env (k+1), c := posC env (k+1), dirBeforeCell := dirAt env k,
    cellType := env.state (posR env (k+1)) (posC env (k+1)) }

/-! ### Grid mutation operations -/

/-- The N x N cell matrix owned by the game. -/
abbrev GridState (n : Nat) := Fin n → Fin n → Cell

/-- Write one cell of the matrix. -/
def setCell {n : Nat} (state : GridState n) (r c : Fin n) (v : Cell) : GridState n :=
  fun r' c' => if r' = r ∧ c' = c then v else state r' c'

/-- toggleCell of the source.  `coverVisible = true` is play mode (the cover is
on), `false` is edit mode. -/
def toggleCell {n : Nat} (coverVisible : Bool) (state : GridState n) (r c : Fin n) :
    GridState n :=
  if coverVisible ∧ state r c = Cell.fixed then
    state
  else if coverVisible = false then
    match state r c with
    | Cell.fixed => setCell state r c Cell.empty
    | Cell.empty => setCell state r c Cell.fixed
    | Cell.player => setCell state r c Cell.empty
  else
    setCell state r c (if state r c = Cell.player then Cell.empty else Cell.player)

/-- resetPlayerObstacles of the source: every player obstacle becomes empty. -/
def resetPlayerObstacles {n : Nat} (state : GridState n) : GridState n :=
  fun r c => if state r c = Cell.player then Cell.empty else state r c

/-! ### The signal decoder -/

/-- A raw signal record {signal, timestamp}. -/
structure RawSignal where
  signal : Int
  timestamp : Int
deriving DecidableEq, Repr

/-- The commands the decoder can emit (the three methods it calls). -/
inductive GameCommand
  | toggleCellCmd (r c : Int)
  | fireRay
  | resetObstacles
deriving DecidableEq, Repr

/-- Decoder state: the signal buffer plus whether a signal-9 timer is pending
(the source keeps a timer handle; `true` models a non-null handle). -/
structure DecoderState where
  signalBuffer : List RawSignal
  signal9Timer : Bool
deriving DecidableEq, Repr

/-- processSignal of the source.  `n` is the grid dimension, `w` the window
(signalTimeoutMs = 3000 in the source).  Returns the new state and the command
emitted, if any.  Entering the signal-9 branch first clears any pending timer
(clearTimeout); the single-9 path then arms a new one. -/
def processSignal (n : Nat) (w : Int) (s : DecoderState) (signal timestamp : Int) :
    DecoderState × Option GameCommand :=
  if signal = 9 then
    let recent9 := s.signalBuffer.filter
      (fun it => decide (it.signal = 9) && decide (timestamp - it.timestamp ≤ w))
    if 0 < recent9.length then
      ({ signalBuffer := s.signalBuffer.filter (fun it => decide (it.signal ≠ 9)),
         signal9Timer := false },
       some GameCommand.resetObstacles)
    else
      ({ signalBuffer := s.signalBuffer ++ [{ signal := signal, timestamp := timestamp }],
         signal9Timer := true }, none)
  else
    let buf1 := s.signalBuffer.filter
      (fun it => decide (timestamp - it.timestamp ≤ w) && decide (it.signal ≠ 9))
    let buf2 : List RawSignal := buf1 ++ [{ signal := signal, timestamp := timestamp }]
    let coordinateSignals := buf2.filter (fun it => decide (it.signal ≠ 9))
    if 2 ≤ coordinateSignals.length then
      match coordinateSignals.drop (coordinateSignals.length - 2) with
      | [first, second] =>
        let timeDiff := second.timestamp - first.timestamp
        if timeDiff ≤ w ∧ 0 ≤ timeDiff then
          let r := first.signal - 1
          let c := second.signal - 1
          if 0 ≤ r ∧ r < (n : Int) ∧ 0 ≤ c ∧ c < (n : Int) then
            ({ signalBuffer := buf2.filter (fun it => decide (it.signal = 9)),
               signal9Timer := s.signal9Timer },
             some (GameCommand.toggleCellCmd r c))
          else
            ({ signalBuffer := buf2.filter (fun it => decide (it.signal = 9)),
               signal9Timer := s.signal9Timer }, none)
        else
          ({ signalBuffer := buf2.filter (fun it => decide (it.signal = 9)) ++ [second],
             signal9Timer := s.signal9Timer }, none)
      | _ => ({ signalBuffer := buf2, signal9Timer := s.signal9Timer }, none)
    else
      ({ signalBuffer := buf2, signal9Timer := s.signal9Timer }, none)

/-- The signal-9 timer callback of the source, firing after the window; it has
an effect only while the timer is pending (setTimeout whose handle was not
cleared), and in every case the handle is nulled. -/
def timerFire (s : DecoderState) : DecoderState × Option GameCommand :=
  if s.signal9Timer then
    let current9s := s.signalBuffer.filter (fun it => decide (it.signal = 9))
    if current9s.length = 1 then
      ({ signalBuffer := s.signalBuffer.filter (fun it => decide (it.signal ≠ 9)),
         signal9Timer := false },
       some GameCommand.fireRay)
    else
      ({ signalBuffer := s.signalBuffer, signal9Timer := false }, none)
  else (s, none)

/-- The two reentrant activities on the decoder: a signal arrival and the
timer callback firing. -/
inductive DecoderEvent
  | sig (signal timestamp : Int)
  | fire
deriving DecidableEq, Repr

/-- One decoder event. -/
def decoderStep (n : Nat) (w : Int) (s : DecoderState) : DecoderEvent → DecoderState × Option GameCommand
  | DecoderEvent.sig sg t => processSignal n w s sg t
  | DecoderEvent.fire => timerFire s

/-- Run a sequence of decoder events, collecting emitted commands in order. -/
def decoderRun (n : Nat) (w : Int) : DecoderState → List DecoderEvent → DecoderState × List GameCommand
  | s, [] => (s, [])
  | s, e :: rest =>
    let sc := decoderStep n w s e
    let rest' := decoderRun n w sc.1 rest
    (rest'.1, sc.2.toList ++ rest'.2)

/-! ### Concrete instances used by the examples -/

/-- The all-empty grid. -/
def emptyGridFn : GridFn := fun _ _ => Cell.empty

/-- Entry on the left at row 3, exit on the right at row 3, no obstacles. -/
def envStraightWin : TraceEnv :=
  { n := 8, state := emptyGridFn, entry := ⟨Side.left, 3⟩, exit := ⟨Side.right, 3⟩ }

/-- Entry on the left at row 3, the level's exit (bottom @ 5), no obstacles. -/
def envStraightLose : TraceEnv :=
  { n := 8, state := emptyGridFn, entry := ⟨Side.left, 3⟩, exit := ⟨Side.bottom, 5⟩ }

/-- Obstacles at (2,4), (0,4) and (0,2): the ray entering left at row 2 crosses
its own track at cell (2,2) with a different direction. -/
def crossGridFn : GridFn := fun r c =>
  if (r = 2 ∧ c = 4) ∨ (r = 0 ∧ c = 4) then Cell.player
  else if r = 0 ∧ c = 2 then Cell.fixed
  else Cell.empty

/-- Environment whose trace revisits cell (2,2) under two directions. -/
def envCross : TraceEnv :=
  { n := 8, state := crossGridFn, entry := ⟨Side.left, 2⟩, exit := ⟨Side.bottom, 2⟩ }

/-- Entry on the left at an out-of-range row: the ray never enters the grid. -/
def envNever : TraceEnv :=
  { n := 8, state := emptyGridFn, entry := ⟨Side.left, 9⟩, exit := ⟨Side.right, 3⟩ }

/-- The direction the ray leaves a recorded cell with: rotated 90 degrees
counter-clockwise when the cell is an obstacle, unchanged when it is empty. -/
def dirOut (e : PathEntry) : Dir :=
  if e.cellType = Cell.player ∨ e.cellType = Cell.fixed then rotateCCW e.dirBeforeCell
  else e.dirBeforeCell

/-- Each path element enters with the direction the previous element left with. -/
def StepRel : List PathEntry → Prop
  | [] => True
  | [_] => True
  | a :: b :: rest => b.dirBeforeCell = dirOut a ∧ StepRel (b :: rest)

/-- The straight-line path along row 3 recorded by the obstacle-free trace. -/
def straightPath : List PathEntry :=
  [⟨3, 0, Dir.E, Cell.empty⟩, ⟨3, 1, Dir.E, Cell.empty⟩, ⟨3, 2, Dir.E, Cell.empty⟩,
   ⟨3, 3, Dir.E, Cell.empty⟩, ⟨3, 4, Dir.E, Cell.empty⟩, ⟨3, 5, Dir.E, Cell.empty⟩,
   ⟨3, 6, Dir.E, Cell.empty⟩, ⟨3, 7, Dir.E, Cell.empty⟩]

/-- Result of the obstacle-free trace when the exit is right @ 3. -/
def straightWinResult : SimResult :=
  { outcome := Outcome.win, exitInfo := some ⟨Side.right, 3⟩, path := straightPath,
    reason := winReason }

/-- Result of the obstacle-free trace when the exit is bottom @ 5. -/
def straightLoseResult : SimResult :=
  { outcome := Outcome.lose, exitInfo := some ⟨Side.right, 3⟩, path := straightPath,
    reason := loseExitReason ⟨Side.right, 3⟩ }

/-- Result of the envCross trace: the ray crosses cell (2,2) going east and
later going south, and exits at the bottom of column 2. -/
def crossResult : SimResult :=
  { outcome := Outcome.win, exitInfo := some ⟨Side.bottom, 2⟩,
    path :=
      [⟨2, 0, Dir.E, Cell.empty⟩, ⟨2, 1, Dir.E, Cell.empty⟩, ⟨2, 2, Dir.E, Cell.empty⟩,
       ⟨2, 3, Dir.E, Cell.empty⟩, ⟨2, 4, Dir.E, Cell.player⟩, ⟨1, 4, Dir.N, Cell.empty⟩,
       ⟨0, 4, Dir.N, Cell.player⟩, ⟨0, 3, Dir.W, Cell.empty⟩, ⟨0, 2, Dir.W, Cell.fixed⟩,
       ⟨1, 2, Dir.S, Cell.empty⟩, ⟨2, 2, Dir.S, Cell.empty⟩, ⟨3, 2, Dir.S, Cell.empty⟩,
       ⟨4, 2, Dir.S, Cell.empty⟩, ⟨5, 2, Dir.S, Cell.empty⟩, ⟨6, 2, Dir.S, Cell.empty⟩,
       ⟨7, 2, Dir.S, Cell.empty⟩],
    reason := winReason }

/-! ### Basic facts about the ray helpers -/

lemma rotateCCW_inj : ∀ a b : Dir, rotateCCW a = rotateCCW b → a = b := by
  intro a b h
  cases a <;> cases b <;> simp_all [rotateCCW]

lemma isInside_iff (n : Nat) (r c : Int) :
    isInside n r c = true ↔ (0 ≤ r ∧ r < (n : Int) ∧ 0 ≤ c ∧ c < (n : Int)) := by
  simp [isInside, and_assoc]

lemma isInside_false_iff (n : Nat) (r c : Int) :
    isInside n r c = false ↔ ¬(0 ≤ r ∧ r < (n : Int) ∧ 0 ≤ c ∧ c < (n : Int)) := by
  rw [← isInside_iff]
  cases isInside n r c <;> simp

/-- The start position one cell outside the grid really is outside. -/
lemma start_not_inside (env : TraceEnv) :
    isInside env.n (posR env 0) (posC env 0) = false := by
  rcases h : env.entry with ⟨side, idx⟩
  rw [isInside_false_iff]
  cases side <;>
    simp [posR, posC, rayPosAux, entryStartOutside, h]

/-- When the next position is outside, computeExitSideAndIndex does not throw. -/
lemma computeExit_isSome (n : Nat) (r c nr nc : Int) (h : isInside n nr nc = false) :
    ∃ e, computeExitSideAndIndex n r c nr nc = some e := by
  rw [isInside_false_iff] at h
  unfold computeExitSideAndIndex
  split_ifs with h1 h2 h3 h4
  · exact ⟨_, rfl⟩
  · exact ⟨_, rfl⟩
  · exact ⟨_, rfl⟩
  · exact ⟨_, rfl⟩
  · exact absurd (by omega : 0 ≤ nr ∧ nr < (n : Int) ∧ 0 ≤ nc ∧ nc < (n : Int)) h

/-- The index of the crossed boundary comes from the last in-grid coordinate:
the row for a left/right crossing, the column for a top/bottom crossing. -/
lemma computeExit_index (n : Nat) (r c nr nc : Int) (e : BoundaryRef)
    (h : computeExitSideAndIndex n r c nr nc = some e) :
    ((e.side = Side.left ∨ e.side = Side.right) → e.index = r) ∧
    ((e.side = Side.top ∨ e.side = Side.bottom) → e.index = c) := by
  unfold computeExitSideAndIndex at h
  split_ifs at h <;>
    (injection h with h; subst h; constructor <;> rintro (hs | hs) <;> simp_all)

/-! ### The orbit of the ray never repeats a key -/

lemma rayPos_eta (env : TraceEnv) (k : Nat) :
    rayPosAux env k = (posR env k, posC env k, dirAt env k) := rfl

lemma posR_succ (env : TraceEnv) (k : Nat) :
    posR env (k+1) = posR env k + (dirToDelta (dirAt env k)).1 := rfl

lemma posC_succ (env : TraceEnv) (k : Nat) :
    posC env (k+1) = posC env k + (dirToDelta (dirAt env k)).2 := rfl

lemma dirAt_succ (env : TraceEnv) (k : Nat) :
    dirAt env (k+1) =
      (if env.state (posR env (k+1)) (posC env (k+1)) = Cell.player ∨
          env.state (posR env (k+1)) (posC env (k+1)) = Cell.fixed
       then rotateCCW (dirAt env k) else dirAt env k) := rfl

/-- The loop transition is injective on (r, c, dir) states. -/
lemma rayStep_inj (env : TraceEnv) {s t : Int × Int × Dir}
    (h : rayStep env s = rayStep env t) : s = t := by
  obtain ⟨r1, c1, d1⟩ := s
  obtain ⟨r2, c2, d2⟩ := t
  simp only [rayStep, Prod.mk.injEq] at h
  obtain ⟨h1, h2, h3⟩ := h
  rw [h1, h2] at h3
  have hd : d1 = d2 := by
    by_cases hob : (env.state (r2 + (dirToDelta d2).1) (c2 + (dirToDelta d2).2) = Cell.player ∨
        env.state (r2 + (dirToDelta d2).1) (c2 + (dirToDelta d2).2) = Cell.fixed)
    · rw [if_pos hob, if_pos hob] at h3
      exact rotateCCW_inj _ _ h3
    · rw [if_neg hob, if_neg hob] at h3
      exact h3
  subst hd
  have hr : r1 = r2 := by omega
  have hc : c1 = c2 := by omega
  simp [hr, hc]

lemma rayPosAux_cancel (env : TraceEnv) (k : Nat) :
    ∀ i j : Nat, rayPosAux env (i + k) = rayPosAux env (j + k) →
      rayPosAux env i = rayPosAux env j := by
  induction k with
  | zero => intro i j h; exact h
  | succ k ih =>
      intro i j h
      apply ih
      exact rayStep_inj env
        (show rayStep env (rayPosAux env (i + k)) = rayStep env (rayPosAux env (j + k)) from h)

lemma keyAt_eq_step (env : TraceEnv) {i j : Nat} (h : keyAt env i = keyAt env j) :
    rayPosAux env (i+1) = rayPosAux env (j+1) := by
  simp only [keyAt, Prod.mk.injEq] at h
  obtain ⟨h1, h2, h3⟩ := h
  rw [rayPos_eta env (i+1), rayPos_eta env (j+1)]
  refine congrArg₂ _ h1 (congrArg₂ _ h2 ?_)
  rw [dirAt_succ, dirAt_succ, h1, h2, h3]

/-- Distinctness of visit keys: as long as every entered position was in-grid,
no (r, c, direction) key can recur, because the transition is injective and
the entry key's predecessor lies outside the grid. -/
lemma keyAt_ne (env : TraceEnv) {i j m : Nat} (hij : i < j) (hjm : j ≤ m)
    (hin : ∀ k, 1 ≤ k → k ≤ m → isInside env.n (posR env k) (posC env k) = true) :
    keyAt env i ≠ keyAt env j := by
  intro h
  have hstep := keyAt_eq_step env h
  have h0 : rayPosAux env 0 = rayPosAux env (j - i) := by
    apply rayPosAux_cancel env (i+1)
    rw [show 0 + (i+1) = i+1 from by omega, show (j - i) + (i+1) = j+1 from by omega]
    exact hstep
  have hr : posR env 0 = posR env (j - i) := congrArg Prod.fst h0
  have hc : posC env 0 = posC env (j - i) := congrArg (fun s => s.2.1) h0
  have hIn : isInside env.n (posR env (j - i)) (posC env (j - i)) = true :=
    hin (j - i) (by omega) (by omega)
  have hOut := start_not_inside env
  rw [hr, hc, hIn] at hOut
  cases hOut

/-! ### Reason strings -/

lemma winReason_ne_loop : winReason ≠ loopReason := by decide

lemma stepLimit_ne_loop : stepLimitReason ≠ loopReason := by decide

lemma neverEntered_ne_loop : neverEnteredReason ≠ loopReason := by decide

lemma loseExit_ne_loop (e : BoundaryRef) : loseExitReason e ≠ loopReason := by
  intro h
  have h2 := congrArg String.data h
  simp [loseExitReason, loopReason] at h2

/-! ### Unfolding the loop along the orbit -/

lemma traceLoop_at_succ (env : TraceEnv) (fuel k : Nat)
    (visited : List (Int × Int × Dir)) (path : List PathEntry) :
    traceLoop env (fuel+1) (posR env k) (posC env k) (dirAt env k) visited path =
      (if isInside env.n (posR env (k+1)) (posC env (k+1)) then
        (if keyAt env k ∈ visited then
          some { outcome := Outcome.lose, exitInfo := none, path := path, reason := loopReason }
        else
          traceLoop env fuel (posR env (k+1)) (posC env (k+1)) (dirAt env (k+1))
            (keyAt env k :: visited) (path ++ [pathEntryAt env k]))
      else if isInside env.n (posR env k) (posC env k) then
        (computeExitSideAndIndex env.n (posR env k) (posC env k)
            (posR env (k+1)) (posC env (k+1))).map (fun exitInfo =>
          if exitInfo.side = env.exit.side ∧ exitInfo.index = env.exit.index then
            { outcome := Outcome.win, exitInfo := some exitInfo, path := path,
              reason := winReason }
          else
            { outcome := Outcome.lose, exitInfo := some exitInfo, path := path,
              reason := loseExitReason exitInfo })
      else
        some { outcome := Outcome.lose, exitInfo := none, path := path,
               reason := neverEnteredReason }) := rfl

/-- Complete description of a run of the loop started at orbit step k with the
matching memo and path: it returns a result (never throws), the result's path
lists the path elements of orbit steps below some m, every entered position
was in-grid, and the loop-detection branch is never taken. -/
lemma traceLoop_run (env : TraceEnv) (fuel : Nat) :
    ∀ (k : Nat),
      (∀ i, 1 ≤ i → i ≤ k → isInside env.n (posR env i) (posC env i) = true) →
      ∃ res m,
        traceLoop env fuel (posR env k) (posC env k) (dirAt env k)
            (((List.range k).map (keyAt env)).reverse) ((List.range k).map (pathEntryAt env))
          = some res ∧
        k ≤ m ∧ m ≤ k + fuel ∧
        res.path = (List.range m).map (pathEntryAt env) ∧
        (∀ i, 1 ≤ i → i ≤ m → isInside env.n (posR env i) (posC env i) = true) ∧
        res.reason ≠ loopReason := by
  induction fuel with
  | zero =>
      intro k hin
      exact ⟨_, k, rfl, le_rfl, by omega, rfl, hin, stepLimit_ne_loop⟩
  | succ fuel ih =>
      intro k hin
      rw [traceLoop_at_succ]
      by_cases hIn : isInside env.n (posR env (k+1)) (posC env (k+1)) = true
      · rw [if_pos hIn]
        have hnot : keyAt env k ∉ ((List.range k).map (keyAt env)).reverse := by
          intro hm
          rw [List.mem_reverse, List.mem_map] at hm
          obtain ⟨i, hi, hkey⟩ := hm
          rw [List.mem_range] at hi
          exact keyAt_ne env hi le_rfl hin hkey
        rw [if_neg hnot]
        have hin' : ∀ i, 1 ≤ i → i ≤ k+1 →
            isInside env.n (posR env i) (posC env i) = true := by
          intro i hi1 hi2
          by_cases hik : i ≤ k
          · exact hin i hi1 hik
          · have hik' : i = k+1 := by omega
            subst hik'
            exact hIn
        have hv : keyAt env k :: ((List.range k).map (keyAt env)).reverse
            = ((List.range (k+1)).map (keyAt env)).reverse := by
          simp [List.range_succ]
        have hp : (List.range k).map (pathEntryAt env) ++ [pathEntryAt env k]
            = (List.range (k+1)).map (pathEntryAt env) := by
          simp [List.range_succ]
        rw [hv, hp]
        obtain ⟨res, m, hres, hkm, hmf, hpath, hins, hreason⟩ := ih (k+1) hin'
        exact ⟨res, m, hres, by omega, by omega, hpath, hins, hreason⟩
      · rw [if_neg hIn]
        have hInF : isInside env.n (posR env (k+1)) (posC env (k+1)) = false := by
          cases hb : isInside env.n (posR env (k+1)) (posC env (k+1))
          · rfl
          · exact absurd hb hIn
        by_cases hCur : isInside env.n (posR env k) (posC env k) = true
        · rw [if_pos hCur]
          obtain ⟨e, he⟩ := computeExit_isSome env.n (posR env k) (posC env k)
            (posR env (k+1)) (posC env (k+1)) hInF
          rw [he, Option.map_some']
          by_cases hwin : e.side = env.exit.side ∧ e.index = env.exit.index
          · rw [if_pos hwin]
            exact ⟨_, k, rfl, le_rfl, by omega, rfl, hin, winReason_ne_loop⟩
          · rw [if_neg hwin]
            exact ⟨_, k, rfl, le_rfl, by omega, rfl, hin, loseExit_ne_loop e⟩
        · rw [if_neg hCur]
          exact ⟨_, k, rfl, le_rfl, by omega, rfl, hin, neverEntered_ne_loop⟩

/-- traceRay always returns a result; the path is the orbit prefix of some
length m at most 512, every recorded position is in-grid, and the reason is
never the loop-detection reason. -/
lemma traceRay_run (env : TraceEnv) :
    ∃ res m,
      traceRay env = some res ∧
      m ≤ 512 ∧
      res.path = (List.range m).map (pathEntryAt env) ∧
      (∀ i, 1 ≤ i → i ≤ m → isInside env.n (posR env i) (posC env i) = true) ∧
      res.reason ≠ loopReason := by
  obtain ⟨res, m, hres, _, hmf, hpath, hins, hreason⟩ :=
    traceLoop_run env 512 0 (by intro i hi1 hi2; exact absurd hi2 (by omega))
  exact ⟨res, m, hres, by omega, hpath, hins, hreason⟩

/-- Whenever the loop returns a result carrying exit information, the outcome
is Win exactly when the crossed side and index equal the configured exit. -/
lemma traceLoop_winIff (env : TraceEnv) (fuel : Nat) :
    ∀ (r c : Int) (dir : Dir) (visited : List (Int × Int × Dir)) (path : List PathEntry)
      (res : SimResult) (e : BoundaryRef),
      traceLoop env fuel r c dir visited path = some res →
      res.exitInfo = some e →
      (res.outcome = Outcome.win ↔ (e.side = env.exit.side ∧ e.index = env.exit.index)) := by
  induction fuel with
  | zero =>
      intro r c dir visited path res e h he
      injection h with h
      subst h
      simp at he
  | succ fuel ih =>
      intro r c dir visited path res e h he
      simp only [traceLoop] at h
      by_cases h1 : isInside env.n (r + (dirToDelta dir).1) (c + (dirToDelta dir).2) = true
      · rw [if_pos h1] at h
        by_cases h2 : (r + (dirToDelta dir).1, c + (dirToDelta dir).2, dir) ∈ visited
        · rw [if_pos h2] at h
          injection h with h
          subst h
          simp at he
        · rw [if_neg h2] at h
          exact ih _ _ _ _ _ _ _ h he
      · rw [if_neg h1] at h
        by_cases h2 : isInside env.n r c = true
        · rw [if_pos h2] at h
          rw [Option.map_eq_some'] at h
          obtain ⟨e', he', hfe⟩ := h
          by_cases hwin : e'.side = env.exit.side ∧ e'.index = env.exit.index
          · rw [if_pos hwin] at hfe
            subst hfe
            simp only [] at he
            injection he with he
            subst he
            exact iff_of_true rfl hwin
          · rw [if_neg hwin] at hfe
            subst hfe
            simp only [] at he
            injection he with he
            subst he
            exact iff_of_false (by simp) hwin
        · rw [if_neg h2] at h
          injection h with h
          subst h
          simp at he

/-- Whenever the loop returns exit information, its index is the last in-grid
coordinate: the last path element's row for a left/right crossing, its column
for a top/bottom crossing. -/
lemma traceLoop_exitLast (env : TraceEnv) (fuel : Nat) :
    ∀ (r c : Int) (dir : Dir) (visited : List (Int × Int × Dir)) (path : List PathEntry)
      (res : SimResult) (e : BoundaryRef),
      (isInside env.n r c = true → ∃ l, path.getLast? = some l ∧ l.r = r ∧ l.c = c) →
      traceLoop env fuel r c dir visited path = some res →
      res.exitInfo = some e →
      ∃ l, res.path.getLast? = some l ∧
        ((e.side = Side.left ∨ e.side = Side.right) → e.index = l.r) ∧
        ((e.side = Side.top ∨ e.side = Side.bottom) → e.index = l.c) := by
  induction fuel with
  | zero =>
      intro r c dir visited path res e _ h he
      injection h with h
      subst h
      simp at he
  | succ fuel ih =>
      intro r c dir visited path res e hinv h he
      simp only [traceLoop] at h
      by_cases h1 : isInside env.n (r + (dirToDelta dir).1) (c + (dirToDelta dir).2) = true
      · rw [if_pos h1] at h
        by_cases h2 : (r + (dirToDelta dir).1, c + (dirToDelta dir).2, dir) ∈ visited
        · rw [if_pos h2] at h
          injection h with h
          subst h
          simp at he
        · rw [if_neg h2] at h
          refine ih _ _ _ _ _ _ _ ?_ h he
          intro _
          exact ⟨_, List.getLast?_concat _, rfl, rfl⟩
      · rw [if_neg h1] at h
        by_cases h2 : isInside env.n r c = true
        · rw [if_pos h2] at h
          rw [Option.map_eq_some'] at h
          obtain ⟨e', he', hfe⟩ := h
          obtain ⟨l, hlast, hlr, hlc⟩ := hinv h2
          have hidx := computeExit_index env.n r c _ _ e' he'
          by_cases hwin : e'.side = env.exit.side ∧ e'.index = env.exit.index
          · rw [if_pos hwin] at hfe
            subst hfe
            simp only [] at he
            injection he with he
            subst he
            exact ⟨l, hlast, fun hs => (hidx.1 hs).trans hlr.symm,
                   fun hs => (hidx.2 hs).trans hlc.symm⟩
          · rw [if_neg hwin] at hfe
            subst hfe
            simp only [] at he
            injection he with he
            subst he
            exact ⟨l, hlast, fun hs => (hidx.1 hs).trans hlr.symm,
                   fun hs => (hidx.2 hs).trans hlc.symm⟩
        · rw [if_neg h2] at h
          injection h with h
          subst h
          simp at he

/-! ### The per-step rotation discipline along the recorded path -/

lemma stepRel_append (l : List PathEntry) (e : PathEntry)
    (hs : StepRel l) (hl : ∀ a, l.getLast? = some a → e.dirBeforeCell = dirOut a) :
    StepRel (l ++ [e]) := by
  induction l with
  | nil => trivial
  | cons x rest ih =>
      cases rest with
      | nil => exact ⟨hl x rfl, trivial⟩
      | cons y rest2 =>
          obtain ⟨hxy, hrest⟩ := hs
          exact ⟨hxy, ih hrest (fun a ha => hl a (by rw [List.getLast?_cons_cons]; exact ha))⟩

lemma traceLoop_stepRel (env : TraceEnv) (fuel : Nat) :
    ∀ (r c : Int) (dir : Dir) (visited : List (Int × Int × Dir)) (path : List PathEntry)
      (res : SimResult),
      StepRel path →
      (∀ a, path.getLast? = some a → dir = dirOut a) →
      traceLoop env fuel r c dir visited path = some res →
      StepRel res.path := by
  induction fuel with
  | zero =>
      intro r c dir visited path res hs _ h
      injection h with h
      subst h
      exact hs
  | succ fuel ih =>
      intro r c dir visited path res hs hl h
      simp only [traceLoop] at h
      by_cases h1 : isInside env.n (r + (dirToDelta dir).1) (c + (dirToDelta dir).2) = true
      · rw [if_pos h1] at h
        by_cases h2 : (r + (dirToDelta dir).1, c + (dirToDelta dir).2, dir) ∈ visited
        · rw [if_pos h2] at h
          injection h with h
          subst h
          exact hs
        · rw [if_neg h2] at h
          refine ih _ _ _ _ _ _ ?_ ?_ h
          · exact stepRel_append path _ hs (fun a ha => hl a ha)
          · intro a ha
            rw [List.getLast?_concat] at ha
            injection ha with ha
            subst ha
            rfl
      · rw [if_neg h1] at h
        by_cases h2 : isInside env.n r c = true
        · rw [if_pos h2] at h
          rw [Option.map_eq_some'] at h
          obtain ⟨e', _, hfe⟩ := h
          by_cases hwin : e'.side = env.exit.side ∧ e'.index = env.exit.index
          · rw [if_pos hwin] at hfe
            subst hfe
            exact hs
          · rw [if_neg hwin] at hfe
            subst hfe
            exact hs
        · rw [if_neg h2] at h
          injection h with h
          subst h
          exact hs

/-- If the first advanced position is already outside the grid, the ray never
enters and the trace returns the never-entered result instead of throwing. -/
lemma traceRay_neverEntered (env : TraceEnv)
    (h : isInside env.n (posR env 1) (posC env 1) = false) :
    traceRay env = some { outcome := Outcome.lose, exitInfo := none, path := [],
                          reason := neverEnteredReason } := by
  show traceLoop env (511+1) (posR env 0) (posC env 0) (dirAt env 0) [] [] = _
  rw [traceLoop_at_succ]
  rw [if_neg (show ¬(isInside env.n (posR env (0+1)) (posC env (0+1)) = true) by simp [h])]
  rw [if_neg (show ¬(isInside env.n (posR env 0) (posC env 0) = true) by
    simp [start_not_inside env])]

/-- A winning result always carries the win reason string. -/
lemma traceLoop_win_reason (env : TraceEnv) (fuel : Nat) :
    ∀ (r c : Int) (dir : Dir) (visited : List (Int × Int × Dir)) (path : List PathEntry)
      (res : SimResult),
      traceLoop env fuel r c dir visited path = some res →
      res.outcome = Outcome.win → res.reason = winReason := by
  induction fuel with
  | zero =>
      intro r c dir visited path res h hw
      injection h with h
      subst h
      simp at hw
  | succ fuel ih =>
      intro r c dir visited path res h hw
      simp only [traceLoop] at h
      by_cases h1 : isInside env.n (r + (dirToDelta dir).1) (c + (dirToDelta dir).2) = true
      · rw [if_pos h1] at h
        by_cases h2 : (r + (dirToDelta dir).1, c + (dirToDelta dir).2, dir) ∈ visited
        · rw [if_pos h2] at h
          injection h with h
          subst h
          simp at hw
        · rw [if_neg h2] at h
          exact ih _ _ _ _ _ _ h hw
      · rw [if_neg h1] at h
        by_cases h2 : isInside env.n r c = true
        · rw [if_pos h2] at h
          rw [Option.map_eq_some'] at h
          obtain ⟨e', _, hfe⟩ := h
          by_cases hwin : e'.side = env.exit.side ∧ e'.index = env.exit.index
          · rw [if_pos hwin] at hfe
            subst hfe
            rfl
          · rw [if_neg hwin] at hfe
            subst hfe
            simp at hw
        · rw [if_neg h2] at h
          injection h with h
          subst h
          simp at hw

/-! ### Claim theorems for the ray tracer -/

/-- C1: whenever the traced ray steps from an in-grid cell to an out-of-grid
position, the outcome is Win iff the crossed boundary side and index equal the
configured exit, the index being the last in-grid row for left/right crossings
and the last in-grid column for top/bottom crossings; in particular, for an
entry on the left at row 3 with no obstacles the reported exit is
side = right, index = 3 (winning exactly when that is the configured exit). -/
theorem C1_exit_classification :
    (∀ (env : TraceEnv) (res : SimResult) (e : BoundaryRef),
       traceRay env = some res → res.exitInfo = some e →
       ((res.outcome = Outcome.win ↔ (e.side = env.exit.side ∧ e.index = env.exit.index)) ∧
        ∃ l, res.path.getLast? = some l ∧
          ((e.side = Side.left ∨ e.side = Side.right) → e.index = l.r) ∧
          ((e.side = Side.top ∨ e.side = Side.bottom) → e.index = l.c))) ∧
    traceRay envStraightWin = some straightWinResult ∧
    traceRay envStraightLose = some straightLoseResult := by
  refine ⟨?_, by decide, by decide⟩
  intro env res e h he
  constructor
  · exact traceLoop_winIff env 512 (posR env 0) (posC env 0) (dirAt env 0) [] [] res e h he
  · refine traceLoop_exitLast env 512 (posR env 0) (posC env 0) (dirAt env 0) [] [] res e
      ?_ h he
    intro hIn
    exact absurd hIn (by simp [start_not_inside env])

/-- Witness for C1: the general exit-classification theorem applied to the
obstacle-free left-row-3 trace with exit right @ 3. -/
theorem C1_witness :
    straightWinResult.outcome = Outcome.win ↔
      ((⟨Side.right, 3⟩ : BoundaryRef).side = envStraightWin.exit.side ∧
       (⟨Side.right, 3⟩ : BoundaryRef).index = envStraightWin.exit.index) :=
  (C1_exit_classification.1 envStraightWin straightWinResult ⟨Side.right, 3⟩
    (by decide) (by decide)).1

/-- C5: at every trace step the direction entering the next recorded cell is
the previous direction rotated 90 degrees counter-clockwise
(N -> W -> S -> E -> N) when the previous cell held a player or fixed
obstacle, and unchanged when it was empty. -/
theorem C5_rotation_rule :
    (∀ (env : TraceEnv) (res : SimResult), traceRay env = some res → StepRel res.path) ∧
    (rotateCCW Dir.N = Dir.W ∧ rotateCCW Dir.W = Dir.S ∧ rotateCCW Dir.S = Dir.E ∧
     rotateCCW Dir.E = Dir.N) ∧
    (∀ e : PathEntry,
      ((e.cellType = Cell.player ∨ e.cellType = Cell.fixed) →
        dirOut e = rotateCCW e.dirBeforeCell) ∧
      (e.cellType = Cell.empty → dirOut e = e.dirBeforeCell)) := by
  refine ⟨?_, ⟨rfl, rfl, rfl, rfl⟩, ?_⟩
  · intro env res h
    exact traceLoop_stepRel env 512 (posR env 0) (posC env 0) (dirAt env 0) [] [] res
      trivial (fun a ha => by simp at ha) h
  · intro e
    constructor
    · intro hob
      unfold dirOut
      rw [if_pos hob]
    · intro hemp
      unfold dirOut
      rw [if_neg (by simp [hemp])]

/-- Witness for C5: the rotation discipline holds on the obstacle-free trace. -/
theorem C5_witness : StepRel straightWinResult.path :=
  C5_rotation_rule.1 envStraightWin straightWinResult (by decide)

/-- C6: the trace returns the loop-detection Lose reason exactly when an
in-grid (row, col, direction) triple of the orbit recurs within the traversal;
revisiting a cell with a different direction is not a loop and the traversal
continues (the envCross run crosses cell (2,2) going east and again going
south and still exits normally). -/
theorem C6_loop_detection :
    (∀ (env : TraceEnv) (res : SimResult), traceRay env = some res →
       ((res.reason = loopReason ↔
          ∃ i j, i < j ∧ j ≤ res.path.length ∧ keyAt env i = keyAt env j) ∧
        (res.reason = loopReason → res.outcome = Outcome.lose) ∧
        res.reason ≠ loopReason)) ∧
    (traceRay envCross = some crossResult ∧
     (⟨2, 2, Dir.E, Cell.empty⟩ : PathEntry) ∈ crossResult.path ∧
     (⟨2, 2, Dir.S, Cell.empty⟩ : PathEntry) ∈ crossResult.path ∧
     crossResult.reason ≠ loopReason) := by
  constructor
  · intro env res h
    obtain ⟨res', m, hres', _, hpath, hins, hreason⟩ := traceRay_run env
    have hrr : res = res' := by
      have h2 := hres'.symm.trans h
      injection h2 with h2
      exact h2.symm
    subst hrr
    refine ⟨⟨?_, ?_⟩, ?_, hreason⟩
    · intro hl
      exact absurd hl hreason
    · rintro ⟨i, j, hij, hjl, hk⟩
      exfalso
      have hjm : j ≤ m := by
        rw [hpath] at hjl
        simpa using hjl
      exact keyAt_ne env hij hjm hins hk
    · intro hl
      exact absurd hl hreason
  · exact ⟨by decide, by decide, by decide, by decide⟩

/-- Witness for C6: the loop characterization instantiated on the
obstacle-free trace. -/
theorem C6_witness :
    (straightWinResult.reason = loopReason ↔
      ∃ i j, i < j ∧ j ≤ straightWinResult.path.length ∧
        keyAt envStraightWin i = keyAt envStraightWin j) ∧
    (straightWinResult.reason = loopReason → straightWinResult.outcome = Outcome.lose) ∧
    straightWinResult.reason ≠ loopReason :=
  C6_loop_detection.1 envStraightWin straightWinResult (by decide)

/-- C7: for every grid state and entry configuration the trace terminates with
a result (the modelled throw is never reached), the recorded path has at most
512 entries, a result bearing the step-limit reason is a Lose, and an entry
whose first advanced position is still outside the grid yields the
never-entered Lose result instead of a crash. -/
theorem C7_termination_bounds :
    (∀ env : TraceEnv, ∃ res, traceRay env = some res ∧ res.path.length ≤ 512) ∧
    (∀ (env : TraceEnv) (res : SimResult), traceRay env = some res →
       res.reason = stepLimitReason → res.outcome = Outcome.lose) ∧
    (∀ env : TraceEnv, isInside env.n (posR env 1) (posC env 1) = false →
       traceRay env = some { outcome := Outcome.lose, exitInfo := none, path := [],
                             reason := neverEnteredReason }) := by
  refine ⟨?_, ?_, ?_⟩
  · intro env
    obtain ⟨res, m, hres, hm, hpath, _, _⟩ := traceRay_run env
    refine ⟨res, hres, ?_⟩
    rw [hpath]
    simpa using hm
  · intro env res h hreason
    cases ho : res.outcome with
    | win =>
        have hwr := traceLoop_win_reason env 512 (posR env 0) (posC env 0) (dirAt env 0)
          [] [] res h ho
        exact absurd (hwr.symm.trans hreason) (by decide)
    | lose => rfl
  · intro env h
    exact traceRay_neverEntered env h

/-- Witness for C7: an entry at left row 9 on an 8-grid never enters; the
trace returns the never-entered result. -/
theorem C7_witness :
    traceRay envNever = some { outcome := Outcome.lose, exitInfo := none, path := [],
                               reason := neverEnteredReason } :=
  C7_termination_bounds.2.2 envNever (by decide)

/-- C10: every recorded path entry has in-grid coordinates, the path holds at
most 512 entries, and no two entries share the same (r, c, entry-direction)
triple. -/
theorem C10_path_invariants :
    ∀ (env : TraceEnv) (res : SimResult), traceRay env = some res →
      ((∀ e ∈ res.path, 0 ≤ e.r ∧ e.r < (env.n : Int) ∧ 0 ≤ e.c ∧ e.c < (env.n : Int)) ∧
       res.path.length ≤ 512 ∧
       (res.path.map (fun e => (e.r, e.c, e.dirBeforeCell))).Nodup) := by
  intro env res h
  obtain ⟨res', m, hres', hm, hpath, hins, _⟩ := traceRay_run env
  have hrr : res = res' := by
    have h2 := hres'.symm.trans h
    injection h2 with h2
    exact h2.symm
  subst hrr
  refine ⟨?_, ?_, ?_⟩
  · intro e he
    rw [hpath, List.mem_map] at he
    obtain ⟨k, hk, hke⟩ := he
    rw [List.mem_range] at hk
    subst hke
    have hi := hins (k+1) (by omega) (by omega)
    rw [isInside_iff] at hi
    simpa [pathEntryAt] using hi
  · rw [hpath]
    simpa using hm
  · rw [hpath, List.map_map]
    have hco : ((fun e : PathEntry => (e.r, e.c, e.dirBeforeCell)) ∘ pathEntryAt env)
        = keyAt env := by
      funext k
      rfl
    rw [hco]
    refine List.Nodup.map_on ?_ (List.nodup_range m)
    intro x hx y hy hk
    rw [List.mem_range] at hx hy
    by_contra hne
    rcases Nat.lt_or_ge x y with hlt | hge
    · exact keyAt_ne env hlt (by omega) hins hk
    · have hlt : y < x := by omega
      exact keyAt_ne env hlt (by omega) hins hk.symm

/-- Witness for C10: the path invariants instantiated on the obstacle-free
trace. -/
theorem C10_witness :
    (∀ e ∈ straightWinResult.path,
       0 ≤ e.r ∧ e.r < (envStraightWin.n : Int) ∧ 0 ≤ e.c ∧ e.c < (envStraightWin.n : Int)) ∧
    straightWinResult.path.length ≤ 512 ∧
    (straightWinResult.path.map (fun e => (e.r, e.c, e.dirBeforeCell))).Nodup :=
  C10_path_invariants envStraightWin straightWinResult (by decide)

/-! ### Claim theorems for the grid mutation operations -/

/-- C8: toggleCell obeys the mode-dependent postcondition: in edit mode the
asymmetric cycle fixed -> empty, empty -> fixed, player -> empty; in play mode
only empty <-> player with a no-op on fixed cells; all other cells are
unchanged in every case. -/
theorem C8_toggleCell_cycle :
    ∀ (n : Nat) (coverVisible : Bool) (state : GridState n) (r c : Fin n),
      ((coverVisible = false →
        ((state r c = Cell.fixed → toggleCell coverVisible state r c r c = Cell.empty) ∧
         (state r c = Cell.empty → toggleCell coverVisible state r c r c = Cell.fixed) ∧
         (state r c = Cell.player → toggleCell coverVisible state r c r c = Cell.empty))) ∧
       (coverVisible = true →
        ((state r c = Cell.fixed → toggleCell coverVisible state r c = state) ∧
         (state r c = Cell.empty → toggleCell coverVisible state r c r c = Cell.player) ∧
         (state r c = Cell.player → toggleCell coverVisible state r c r c = Cell.empty))) ∧
       (∀ r' c' : Fin n, ¬(r' = r ∧ c' = c) →
         toggleCell coverVisible state r c r' c' = state r' c')) := by
  intro n coverVisible state r c
  refine ⟨?_, ?_, ?_⟩
  · rintro rfl
    refine ⟨?_, ?_, ?_⟩ <;> intro h <;> simp [toggleCell, h, setCell]
  · rintro rfl
    refine ⟨?_, ?_, ?_⟩ <;> intro h <;> simp [toggleCell, h, setCell]
  · intro r' c' h'
    cases hcv : coverVisible <;> cases h : state r c <;>
      simp [toggleCell, h, setCell, h']

/-- Witness for C8: toggling an empty cell in edit mode makes it fixed. -/
theorem C8_witness :
    toggleCell false (fun _ _ => Cell.empty : GridState 8) 0 0 0 0 = Cell.fixed :=
  ((C8_toggleCell_cycle 8 false (fun _ _ => Cell.empty) 0 0).1 rfl).2.1 rfl

/-- C9: resetPlayerObstacles empties every player-obstacle cell, leaves every
other cell unchanged, and is idempotent. -/
theorem C9_reset_player_obstacles :
    ∀ (n : Nat) (state : GridState n),
      ((∀ r c : Fin n, state r c = Cell.player →
          resetPlayerObstacles state r c = Cell.empty) ∧
       (∀ r c : Fin n, state r c ≠ Cell.player →
          resetPlayerObstacles state r c = state r c) ∧
       resetPlayerObstacles (resetPlayerObstacles state) = resetPlayerObstacles state) := by
  intro n state
  refine ⟨?_, ?_, ?_⟩
  · intro r c h
    simp [resetPlayerObstacles, h]
  · intro r c h
    simp [resetPlayerObstacles, h]
  · funext r c
    cases h : state r c <;> simp [resetPlayerObstacles, h]

/-- Witness for C9: a player obstacle is reset to empty. -/
theorem C9_witness :
    resetPlayerObstacles (fun _ _ => Cell.player : GridState 2) 0 0 = Cell.empty :=
  (C9_reset_player_obstacles 2 (fun _ _ => Cell.player)).1 0 0 rfl

/-! ### Claim theorems for the signal decoder -/

/-- Counterexample to C4 as stated: with a 9 buffered (timer pending), an
in-window coordinate signal 3 removes the buffered 9 from the signal buffer
(the pruning filter drops every command-track entry). -/
theorem C4_counterexample :
    (processSignal 8 3000
        { signalBuffer := [{ signal := 9, timestamp := 0 }], signal9Timer := true }
        3 100).1.signalBuffer = [{ signal := 3, timestamp := 100 }] ∧
    ({ signal := 9, timestamp := 0 } : RawSignal) ∉
      (processSignal 8 3000
          { signalBuffer := [{ signal := 9, timestamp := 0 }], signal9Timer := true }
          3 100).1.signalBuffer := by
  exact ⟨by decide, by decide⟩

/-- C4 (amended): processing any coordinate signal (1-8) leaves the buffer
with no command-track entry at all -- the initial pruning removes every
buffered 9 (so the tracks are not independent in the direction the claim
states); the pending signal-9 timer flag itself is untouched. -/
theorem C4_coordinate_signal_buffer :
    ∀ (n : Nat) (w : Int) (s : DecoderState) (sg t : Int),
      1 ≤ sg → sg ≤ 8 →
      ((∀ it ∈ (processSignal n w s sg t).1.signalBuffer, it.signal ≠ 9) ∧
       (processSignal n w s sg t).1.signal9Timer = s.signal9Timer) := by
  intro n w s sg t h1 h8
  have h9 : ¬(sg = 9) := by omega
  simp only [processSignal, if_neg h9]
  set buf2 : List RawSignal :=
    s.signalBuffer.filter (fun it => decide (t - it.timestamp ≤ w) && decide (it.signal ≠ 9))
      ++ [{ signal := sg, timestamp := t }] with hbuf2def
  have hall : ∀ it ∈ buf2, it.signal ≠ 9 := by
    intro it hit
    rw [hbuf2def] at hit
    rcases List.mem_append.mp hit with hmem | hmem
    · have h2 := List.of_mem_filter hmem
      simp only [Bool.and_eq_true, decide_eq_true_eq] at h2
      exact h2.2
    · rw [List.mem_singleton] at hmem
      subst hmem
      exact h9
  have hcoord : buf2.filter (fun it => decide (it.signal ≠ 9)) = buf2 :=
    List.filter_eq_self.mpr (fun a ha => by simpa using hall a ha)
  have hnone : buf2.filter (fun it => decide (it.signal = 9)) = [] :=
    List.filter_eq_nil_iff.mpr (fun a ha => by simpa using hall a ha)
  rw [hcoord, hnone]
  constructor
  · intro it hit
    split at hit
    · split at hit
      next first second heq =>
        split at hit
        · split at hit
          · simp at hit
          · simp at hit
        · rw [List.nil_append, List.mem_singleton] at hit
          have hmem2 : it ∈ buf2.drop (buf2.length - 2) := by
            simp [heq, hit]
          exact hall it (List.drop_subset _ _ hmem2)
      next =>
        exact hall it hit
    · exact hall it hit
  · split
    · split
      · split
        · split
          · rfl
          · rfl
        · rfl
      · rfl
    · rfl

/-- Witness for C4: the amended coordinate-signal description applied to a
buffer holding a 9 with its timer pending. -/
theorem C4_witness :
    (∀ it ∈ (processSignal 8 3000
        { signalBuffer := [{ signal := 9, timestamp := 0 }], signal9Timer := true }
        3 100).1.signalBuffer, it.signal ≠ 9) ∧
    (processSignal 8 3000
        { signalBuffer := [{ signal := 9, timestamp := 0 }], signal9Timer := true }
        3 100).1.signal9Timer
      = ({ signalBuffer := [{ signal := 9, timestamp := 0 }],
           signal9Timer := true } : DecoderState).signal9Timer :=
  C4_coordinate_signal_buffer 8 3000
    { signalBuffer := [{ signal := 9, timestamp := 0 }], signal9Timer := true }
    3 100 (by decide) (by decide)

/-- Counterexample to C2 as stated: a lone 9 at time 0 with no second 9, but a
coordinate signal 3 at time 100, followed by the window elapsing, emits no
command at all (zero FireRay, not exactly one) -- even though the timer was
still pending when the window elapsed. -/
theorem C2_counterexample :
    decoderRun 8 3000 { signalBuffer := [], signal9Timer := false }
        [DecoderEvent.sig 9 0, DecoderEvent.sig 3 100, DecoderEvent.fire]
      = ({ signalBuffer := [{ signal := 3, timestamp := 100 }], signal9Timer := false }, []) ∧
    (decoderRun 8 3000 { signalBuffer := [], signal9Timer := false }
        [DecoderEvent.sig 9 0, DecoderEvent.sig 3 100]).1.signal9Timer = true := by
  exact ⟨by decide, by decide⟩

/-- C2 (amended): with no 9 buffered, a 9 followed directly by the window
elapsing emits exactly one FireRay and nothing else; a second 9 arriving while
a 9 is buffered within the window and the timer is pending cancels the timer
and emits exactly one ResetObstacles (after which the timer callback emits
nothing); and whenever the timer callback emits, it emits FireRay, clears the
timer, and removes every buffered 9, so the two paths are mutually exclusive.
The FireRay half requires that no coordinate signal intervene: an intervening
coordinate signal deletes the buffered 9 and the timer then emits nothing. -/
lemma processSignal_nine_single (n : Nat) (w : Int) (s : DecoderState) (t : Int)
    (hno : ∀ it ∈ s.signalBuffer, it.signal ≠ 9) :
    processSignal n w s 9 t
      = ({ signalBuffer := s.signalBuffer ++ [{ signal := 9, timestamp := t }],
           signal9Timer := true }, none) := by
  have hrec : s.signalBuffer.filter
      (fun it => decide (it.signal = 9) && decide (t - it.timestamp ≤ w)) = [] :=
    List.filter_eq_nil_iff.mpr (fun a ha => by simp [hno a ha])
  simp only [processSignal]
  rw [if_pos trivial, hrec]
  rw [if_neg (by simp)]

lemma processSignal_nine_double (n : Nat) (w : Int) (s : DecoderState) (t : Int)
    (hlen : 0 < (s.signalBuffer.filter
      (fun it => decide (it.signal = 9) && decide (t - it.timestamp ≤ w))).length) :
    processSignal n w s 9 t
      = ({ signalBuffer := s.signalBuffer.filter (fun it => decide (it.signal ≠ 9)),
           signal9Timer := false }, some GameCommand.resetObstacles) := by
  simp only [processSignal]
  rw [if_pos trivial, if_pos hlen]

lemma timerFire_single (buf : List RawSignal) (x : RawSignal)
    (hall : ∀ it ∈ buf, it.signal ≠ 9) (hx : x.signal = 9) :
    timerFire { signalBuffer := buf ++ [x], signal9Timer := true }
      = ({ signalBuffer := buf, signal9Timer := false }, some GameCommand.fireRay) := by
  have hz : buf.filter (fun it => decide (it.signal = 9)) = [] :=
    List.filter_eq_nil_iff.mpr (fun a ha => by simpa using hall a ha)
  have hne : buf.filter (fun it => decide (it.signal ≠ 9)) = buf :=
    List.filter_eq_self.mpr (fun a ha => by simpa using hall a ha)
  have e1 : (buf ++ [x]).filter (fun it => decide (it.signal = 9)) = [x] := by
    rw [List.filter_append, hz, List.nil_append]
    simp [hx]
  have e2 : (buf ++ [x]).filter (fun it => decide (it.signal ≠ 9)) = buf := by
    rw [List.filter_append, hne]
    simp [hx]
  simp only [timerFire]
  split
  · split
    · rw [e2]
    · next hlen =>
        rw [e1] at hlen
        simp at hlen
  · next hp => exact absurd trivial hp

lemma timerFire_not_pending (s : DecoderState) (h : s.signal9Timer = false) :
    timerFire s = (s, none) := by
  simp only [timerFire]
  rw [if_neg (by simp [h])]

theorem C2_command_track :
    (∀ (n : Nat) (w : Int) (s : DecoderState) (t : Int),
       (∀ it ∈ s.signalBuffer, it.signal ≠ 9) →
       decoderRun n w s [DecoderEvent.sig 9 t, DecoderEvent.fire]
         = ({ signalBuffer := s.signalBuffer, signal9Timer := false },
            [GameCommand.fireRay])) ∧
    (∀ (n : Nat) (w : Int) (s : DecoderState) (t : Int),
       s.signal9Timer = true →
       (∃ it ∈ s.signalBuffer, it.signal = 9 ∧ t - it.timestamp ≤ w) →
       decoderRun n w s [DecoderEvent.sig 9 t, DecoderEvent.fire]
         = ({ signalBuffer := s.signalBuffer.filter (fun it => decide (it.signal ≠ 9)),
              signal9Timer := false },
            [GameCommand.resetObstacles])) ∧
    (∀ (s : DecoderState) (c : GameCommand),
       (timerFire s).2 = some c →
       (c = GameCommand.fireRay ∧ (timerFire s).1.signal9Timer = false ∧
        ∀ it ∈ (timerFire s).1.signalBuffer, it.signal ≠ 9)) := by
  refine ⟨?_, ?_, ?_⟩
  · intro n w s t hno
    have hps := processSignal_nine_single n w s t hno
    have htf := timerFire_single s.signalBuffer { signal := 9, timestamp := t } hno rfl
    simp only [decoderRun, decoderStep]
    rw [hps]
    simp only [decoderRun, decoderStep]
    rw [htf]
    rfl
  · intro n w s t ht hex
    obtain ⟨it, hmem, hsig, hw⟩ := hex
    have hlen : 0 < (s.signalBuffer.filter
        (fun it => decide (it.signal = 9) && decide (t - it.timestamp ≤ w))).length := by
      rw [List.length_pos]
      exact List.ne_nil_of_mem (List.mem_filter.mpr ⟨hmem, by simp [hsig, hw]⟩)
    have hps := processSignal_nine_double n w s t hlen
    have htf := timerFire_not_pending
      { signalBuffer := s.signalBuffer.filter (fun it => decide (it.signal ≠ 9)),
        signal9Timer := false } rfl
    simp only [decoderRun, decoderStep]
    rw [hps]
    simp only [decoderRun, decoderStep]
    rw [htf]
    rfl
  · intro s c h
    simp only [timerFire] at h ⊢
    by_cases ht : s.signal9Timer = true
    · rw [if_pos ht] at h ⊢
      by_cases hlen : (s.signalBuffer.filter (fun it => decide (it.signal = 9))).length = 1
      · rw [if_pos hlen] at h ⊢
        have h' : some GameCommand.fireRay = some c := h
        injection h' with h'
        refine ⟨h'.symm, rfl, ?_⟩
        intro it hit
        have h2 := List.of_mem_filter hit
        simpa using h2
      · rw [if_neg hlen] at h
        simp at h
    · rw [if_neg ht] at h
      simp at h

/-- Witness for C2: the amended single-9 description applied to the empty
buffer: 9 at time 0 followed by the window elapsing fires the ray once. -/
theorem C2_witness :
    decoderRun 8 3000 { signalBuffer := [], signal9Timer := false }
        [DecoderEvent.sig 9 0, DecoderEvent.fire]
      = ({ signalBuffer := ([] : List RawSignal), signal9Timer := false },
         [GameCommand.fireRay]) :=
  C2_command_track.1 8 3000 { signalBuffer := [], signal9Timer := false } 0
    (by intro it hit; simp at hit)

/-- C3: a coordinate signal pairing with the last buffered coordinate signal
within the window (non-negative gap) emits ToggleCell(earlier-1, later-1)
after validation; when every buffered coordinate signal is older than the
window, no command is emitted and the buffer retains only the new signal. -/
theorem C3_coordinate_pairing :
    (∀ (n : Nat) (w : Int) (s : DecoderState) (sg t : Int) (f : RawSignal),
       1 ≤ sg → sg ≤ 8 →
       (s.signalBuffer.filter
         (fun it => decide (t - it.timestamp ≤ w) && decide (it.signal ≠ 9))).getLast?
         = some f →
       0 ≤ t - f.timestamp →
       0 ≤ f.signal - 1 → f.signal - 1 < (n : Int) →
       0 ≤ sg - 1 → sg - 1 < (n : Int) →
       (processSignal n w s sg t).2
         = some (GameCommand.toggleCellCmd (f.signal - 1) (sg - 1))) ∧
    (∀ (n : Nat) (w : Int) (s : DecoderState) (sg t : Int),
       1 ≤ sg → sg ≤ 8 →
       (∀ it ∈ s.signalBuffer, it.signal ≠ 9 → w < t - it.timestamp) →
       processSignal n w s sg t
         = ({ signalBuffer := [{ signal := sg, timestamp := t }],
              signal9Timer := s.signal9Timer }, none)) ∧
    decoderRun 8 3000 { signalBuffer := [], signal9Timer := false }
        [DecoderEvent.sig 3 0, DecoderEvent.sig 5 200]
      = ({ signalBuffer := [], signal9Timer := false }, [GameCommand.toggleCellCmd 2 4]) ∧
    decoderRun 8 3000 { signalBuffer := [], signal9Timer := false }
        [DecoderEvent.sig 3 0, DecoderEvent.sig 5 4000]
      = ({ signalBuffer := [{ signal := 5, timestamp := 4000 }], signal9Timer := false },
         []) := by
  refine ⟨?_, ?_, by decide, by decide⟩
  · intro n w s sg t f h1 h8 hlast hnn hr0 hrn hc0 hcn
    have h9 : ¬(sg = 9) := by omega
    obtain ⟨ys, hys⟩ := List.getLast?_eq_some_iff.mp hlast
    have hfmem : f ∈ s.signalBuffer.filter
        (fun it => decide (t - it.timestamp ≤ w) && decide (it.signal ≠ 9)) := by
      rw [hys]
      simp
    have hfprops := List.of_mem_filter hfmem
    simp only [Bool.and_eq_true, decide_eq_true_eq] at hfprops
    simp only [processSignal]
    rw [if_neg h9, hys]
    have hall : ∀ it ∈ (ys ++ [f]) ++ [({ signal := sg, timestamp := t } : RawSignal)],
        (fun it : RawSignal => decide (it.signal ≠ 9)) it = true := by
      intro it hit
      simp only [decide_eq_true_eq]
      rcases List.mem_append.mp hit with hmem | hmem
      · have hmem2 : it ∈ ys ++ [f] := hmem
        rw [← hys] at hmem2
        have h2 := List.of_mem_filter hmem2
        simp only [Bool.and_eq_true, decide_eq_true_eq] at h2
        exact h2.2
      · rw [List.mem_singleton] at hmem
        subst hmem
        exact h9
    rw [List.filter_eq_self.mpr hall]
    rw [if_pos (by simp only [List.length_append, List.length_singleton]; omega :
      2 ≤ ((ys ++ [f]) ++ [({ signal := sg, timestamp := t } : RawSignal)]).length)]
    have hdrop : ((ys ++ [f]) ++ [({ signal := sg, timestamp := t } : RawSignal)]).drop
        (((ys ++ [f]) ++ [({ signal := sg, timestamp := t } : RawSignal)]).length - 2)
        = [f, { signal := sg, timestamp := t }] := by
      rw [List.append_assoc]
      have hl : (ys ++ ([f] ++ [({ signal := sg, timestamp := t } : RawSignal)])).length - 2
          = ys.length := by
        simp only [List.length_append, List.length_singleton]
        omega
      rw [hl]
      exact List.drop_left ys ([f] ++ [{ signal := sg, timestamp := t }])
    rw [hdrop]
    have hfw := hfprops.1
    simp [hfw, hnn, hr0, hrn, hc0, hcn]
  · intro n w s sg t h1 h8 hstale
    have h9 : ¬(sg = 9) := by omega
    have hprune : s.signalBuffer.filter
        (fun it => decide (t - it.timestamp ≤ w) && decide (it.signal ≠ 9)) = [] := by
      refine List.filter_eq_nil_iff.mpr ?_
      intro a ha
      simp only [Bool.and_eq_true, decide_eq_true_eq, not_and]
      intro hw h9a
      have hst := hstale a ha h9a
      omega
    simp only [processSignal]
    rw [if_neg h9, hprune]
    simp [h9]

/-- Witness for C3: the pairing rule applied to a buffer holding 3@0 when
5@200 arrives emits ToggleCell(2, 4). -/
theorem C3_witness :
    (processSignal 8 3000
        { signalBuffer := [{ signal := 3, timestamp := 0 }], signal9Timer := false }
        5 200).2
      = some (GameCommand.toggleCellCmd
          (({ signal := 3, timestamp := 0 } : RawSignal).signal - 1) (5 - 1)) :=
  C3_coordinate_pairing.1 8 3000
    { signalBuffer := [{ signal := 3, timestamp := 0 }], signal9Timer := false }
    5 200 { signal := 3, timestamp := 0 }
    (by decide) (by decide) (by decide) (by decide) (by decide) (by decide)
    (by decide) (by decide)
